import Mathlib

/-!
# Verification of the mqtt3 client engine specification

A shallow embedding of the mqtt3 MQTT v3.1.1 client engine and proofs of the
specification's claims about it.  The repository's `src/` tree holds only the
two example programs (`src/examples/publisher.rs`, `src/examples/will.rs`),
which are callers of the `mqtt3` library; the session engine itself is not in
`src/`.  Definitions embedding the engine are therefore modelled from the
specification text (each such definition's doc comment starts with
`Modelled from the spec:`), while the construction/handle surface is embedded
from the call sites in the two example files.
-/

namespace Mqtt3

/-! ## Data model visible at the call sites

`mqtt3::proto::QoS` and `mqtt3::proto::Publication` as used by
`src/examples/publisher.rs` (lines 133-138) and `src/examples/will.rs`
(lines 82-87). -/

/-- `mqtt3::proto::QoS`: quality-of-service level 0, 1 or 2. -/
inductive QoS
  | atMostOnce
  | atLeastOnce
  | exactlyOnce
deriving DecidableEq, Repr

/-- Byte strings (`mqtt3::proto::ByteStr`) are modelled as Lean strings. -/
abbrev ByteStr := String

/-- Payload bytes (`bytes::Bytes`) are modelled as a list of byte values. -/
abbrev Bytes := List Nat

/-- `mqtt3::proto::Publication` as constructed at
`src/examples/publisher.rs:133-138`: topic name, QoS, retain flag, payload. -/
structure Publication where
  topic_name : ByteStr
  qos : QoS
  retain : Bool
  payload : Bytes
deriving DecidableEq, Repr

/-! ## Backoff Policy (spec §4.2, §8) — claim C1 -/

/-- Modelled from the spec: the Backoff Policy's configuration.  `base` is the
initial delay, `maxBackoff` the configured hard ceiling
(`max_reconnect_back_off` at `src/examples/publisher.rs:92`), `cap` the cap on
the exponent.  Delays are in abstract time units. -/
structure BackoffPolicy where
  base : Nat
  maxBackoff : Nat
  cap : Nat
deriving Repr

/-- Modelled from the spec: `delay = min(max_backoff, base * 2^min(counter, cap))`
where `counter` is the number of consecutive failures since the last success
(spec §4.2). -/
def backoffDelay (p : BackoffPolicy) (counter : Nat) : Nat :=
  min p.maxBackoff (p.base * 2 ^ (min counter p.cap))

/-- Outcome of one connection attempt of the Reconnect Loop. -/
inductive AttemptOutcome
  | success
  | failure
deriving DecidableEq, Repr

/-- Modelled from the spec: the sleeps performed by the Reconnect Loop, given
the current consecutive-failure counter and the sequence of attempt outcomes.
On failure the loop sleeps `backoffDelay` at the current counter and increments
the counter; on success (a successful CONNACK) the counter resets to zero and
no sleep occurs (spec §4.2). -/
def loopSleeps (p : BackoffPolicy) : Nat → List AttemptOutcome → List Nat
  | _, [] => []
  | _, .success :: rest => loopSleeps p 0 rest
  | counter, .failure :: rest => backoffDelay p counter :: loopSleeps p (counter + 1) rest

theorem backoffDelay_le_max (p : BackoffPolicy) (c : Nat) :
    backoffDelay p c ≤ p.maxBackoff :=
  Nat.min_le_left _ _

theorem backoffDelay_zero (p : BackoffPolicy) (hbase : p.base ≤ p.maxBackoff) :
    backoffDelay p 0 = p.base := by
  simp [backoffDelay, Nat.min_eq_right hbase]

theorem loopSleeps_le_max (p : BackoffPolicy) :
    ∀ (c : Nat) (outs : List AttemptOutcome), ∀ d ∈ loopSleeps p c outs, d ≤ p.maxBackoff := by
  intro c outs
  induction outs generalizing c with
  | nil => simp [loopSleeps]
  | cons o rest ih =>
    cases o with
    | success => simpa [loopSleeps] using ih 0
    | failure =>
      intro d hd
      simp only [loopSleeps, List.mem_cons] at hd
      rcases hd with rfl | hd
      · exact backoffDelay_le_max p c
      · exact ih (c + 1) d hd

theorem loopSleeps_replicate (p : BackoffPolicy) :
    ∀ (n c : Nat), loopSleeps p c (List.replicate n .failure) =
      (List.range n).map (fun k => backoffDelay p (c + k)) := by
  intro n
  induction n with
  | zero => intro c; simp [loopSleeps]
  | succ m ih =>
    intro c
    rw [List.replicate_succ, List.range_succ_eq_map]
    simp only [loopSleeps, List.map_cons, List.map_map, ih (c + 1)]
    congr 1
    simp only [List.map_map, List.map_inj_left, Function.comp_apply, List.mem_range]
    intro k _
    exact congrArg (backoffDelay p) (by omega)

/-- C1: For every run of the Reconnect Loop, the delay slept between
consecutive failed connection attempts equals
`min(max_backoff, base * 2^min(counter, cap))` where `counter` is the number
of consecutive failures since the last success; the failure counter resets to
zero on a successful CONNACK, so the next delay is `base`; and the delay never
exceeds `max_backoff`. -/
theorem reconnect_loop_backoff (p : BackoffPolicy) (hbase : p.base ≤ p.maxBackoff) :
    (∀ (c : Nat) (outs : List AttemptOutcome), ∀ d ∈ loopSleeps p c outs, d ≤ p.maxBackoff) ∧
    (∀ (c : Nat) (rest : List AttemptOutcome),
      loopSleeps p c (.success :: rest) = loopSleeps p 0 rest) ∧
    (∀ rest : List AttemptOutcome,
      (loopSleeps p 0 (.failure :: rest)).head? = some p.base) ∧
    (∀ (c n : Nat), loopSleeps p c (List.replicate n .failure) =
      (List.range n).map (fun k => backoffDelay p (c + k))) := by
  refine ⟨loopSleeps_le_max p, fun c rest => rfl, ?_, fun c n => loopSleeps_replicate p n c⟩
  intro rest
  simp [loopSleeps, backoffDelay_zero p hbase]

/-- Witness for C1 at a concrete policy (base 2, ceiling 30, cap 5) and run. -/
theorem reconnect_loop_backoff_witness :
    (loopSleeps ⟨2, 30, 5⟩ 0
      (.failure :: [.failure, .success, .failure])).head? = some (2 : Nat) := by
  have h := reconnect_loop_backoff ⟨2, 30, 5⟩ (by decide)
  exact h.2.2.1 [.failure, .success, .failure]

/-! ## Packet Identifier Allocator (spec §2, §3, §9) — claims C2 and C8 -/

/-- MQTT packet identifiers are 16-bit and nonzero: 1..65535. -/
def maxPacketId : Nat := 65535

abbrev PacketId := Nat

/-- The full identifier space `[1, …, 65535]`. -/
def allIds : List PacketId := (List.range maxPacketId).map (· + 1)

/-- Terminal acknowledgment kinds for outbound QoS 1/2 exchanges. -/
inductive AckKind
  | puback
  | pubcomp
deriving DecidableEq, Repr

/-- Modelled from the spec: whether an acknowledgment is the terminal one for
an exchange of the given QoS — PUBACK for QoS 1, PUBCOMP for QoS 2 (spec §3). -/
def matchesTerminal (q : QoS) (k : AckKind) : Bool :=
  match q, k with
  | .atLeastOnce, .puback => true
  | .exactlyOnce, .pubcomp => true
  | _, _ => false

/-- Modelled from the spec: the arena-style Packet Identifier Allocator
(spec §9): a free list of identifiers, the outstanding-entry map (identifier →
QoS of the in-flight exchange), and the queue of requests blocked on
identifier exhaustion (spec §4.3). -/
structure IdAlloc where
  free : List PacketId
  outstanding : List (PacketId × QoS)
  queued : List QoS
deriving DecidableEq, Repr

/-- The allocator at client construction: every identifier free. -/
def IdAlloc.init : IdAlloc := ⟨allIds, [], []⟩

/-- Outcome of submitting a new publish/subscribe request to the allocator:
either an identifier is assigned, or the request blocks (queues).  There is no
failure outcome: identifier exhaustion blocks, it never errors (spec §4.3). -/
inductive AllocResult
  | assigned (id : PacketId)
  | blocked
deriving DecidableEq, Repr

/-- Modelled from the spec: accepting a new publish/subscribe request.  If an
identifier is free it is moved to the outstanding map; when all identifiers
are in flight the request queues until one is freed (spec §4.3). -/
def newRequest (s : IdAlloc) (q : QoS) : AllocResult × IdAlloc :=
  match s.free with
  | [] => (.blocked, { s with queued := s.queued ++ [q] })
  | id :: rest =>
    (.assigned id, { s with free := rest, outstanding := s.outstanding ++ [(id, q)] })

/-- Modelled from the spec: receiving an acknowledgment for identifier `id`.
Only the terminal acknowledgment of the matching QoS frees the identifier;
the freed identifier is handed to the head of the blocked-request queue if one
is waiting, otherwise returned to the free pool.  An acknowledgment for an
unknown identifier or of the wrong kind leaves the allocator unchanged (the
attempt-level protocol-violation handling is outside the allocator). -/
def terminalAck (s : IdAlloc) (id : PacketId) (k : AckKind) : IdAlloc :=
  match s.outstanding.find? (fun e => e.1 == id) with
  | none => s
  | some (_, q) =>
    if matchesTerminal q k then
      let out := s.outstanding.filter (fun e => e.1 != id)
      match s.queued with
      | [] => { free := s.free ++ [id], outstanding := out, queued := [] }
      | qq :: qrest => { free := s.free, outstanding := out ++ [(id, qq)], queued := qrest }
    else s

/-- Modelled from the spec: session discard returns every outstanding
identifier to the free pool (spec §3). -/
def discardSession (s : IdAlloc) : IdAlloc :=
  { free := s.free ++ s.outstanding.map (·.1), outstanding := [], queued := s.queued }

/-- One allocator-visible event: a new request, an acknowledgment, or a
session discard. -/
inductive AllocOp
  | request (q : QoS)
  | ack (id : PacketId) (k : AckKind)
  | discard
deriving DecidableEq, Repr

def allocStep (s : IdAlloc) (op : AllocOp) : IdAlloc :=
  match op with
  | .request q => (newRequest s q).2
  | .ack id k => terminalAck s id k
  | .discard => discardSession s

/-- The allocator state reached from construction after a sequence of events
(an arbitrary interleaving of concurrent requests, serialized by the single
command channel of spec §5). -/
def allocRun (ops : List AllocOp) : IdAlloc :=
  ops.foldl allocStep IdAlloc.init

/-- Allocator well-formedness: the free identifiers together with the
outstanding identifiers are a permutation of the full identifier space. -/
def IdAlloc.WF (s : IdAlloc) : Prop :=
  (s.free ++ s.outstanding.map (·.1)).Perm allIds

theorem allIds_nodup : allIds.Nodup :=
  (List.nodup_range maxPacketId).map (add_left_injective 1)

theorem allIds_length : allIds.length = maxPacketId := by
  simp [allIds]

theorem map_fst_filter_ne (l : List (PacketId × QoS)) (id : PacketId) :
    (l.filter (fun e => e.1 != id)).map (·.1) = (l.map (·.1)).filter (· != id) := by
  induction l with
  | nil => rfl
  | cons e t ih => cases hbe : (e.1 != id) <;> simp [List.filter_cons, hbe, ih]

theorem IdAlloc.WF.nodup {s : IdAlloc} (hs : s.WF) :
    (s.free ++ s.outstanding.map (·.1)).Nodup :=
  hs.symm.nodup allIds_nodup

theorem IdAlloc.init_WF : IdAlloc.init.WF := by
  simp [IdAlloc.WF, IdAlloc.init]

theorem allocStep_WF : ∀ s : IdAlloc, s.WF → ∀ op : AllocOp, (allocStep s op).WF := by
  rintro ⟨fr, out, qd⟩ hs op
  cases op with
  | request q =>
    cases fr with
    | nil => simpa [allocStep, newRequest, IdAlloc.WF] using hs
    | cons id rest =>
      simp only [allocStep, newRequest, IdAlloc.WF] at hs ⊢
      refine List.Perm.trans ?_ hs
      simp only [List.map_append, List.map_cons, List.map_nil]
      have h1 : rest ++ (out.map (·.1) ++ [id]) = (rest ++ out.map (·.1)) ++ [id] :=
        (List.append_assoc rest (out.map (·.1)) [id]).symm
      rw [h1]
      exact (List.perm_append_singleton id (rest ++ out.map (·.1))).trans
        (by simp [List.cons_append])
  | ack id k =>
    simp only [allocStep, terminalAck]
    cases hfind : out.find? (fun e => e.1 == id) with
    | none => simpa [hfind] using hs
    | some pq =>
      obtain ⟨p, q⟩ := pq
      have hmem : (p, q) ∈ out := List.mem_of_find?_eq_some hfind
      have hp : p = id := by
        have hps := List.find?_some hfind
        simpa using hps
      subst hp
      by_cases hterm : matchesTerminal q k
      · have hidmem : p ∈ out.map (·.1) := List.mem_map_of_mem (·.1) hmem
        have hnd : (fr ++ out.map (·.1)).Nodup := hs.symm.nodup allIds_nodup
        have hndout : (out.map (·.1)).Nodup := hnd.of_append_right
        have herase : (out.map (·.1)).erase p = (out.map (·.1)).filter (· != p) :=
          hndout.erase_eq_filter p
        have hperm0 : (out.map (·.1)).Perm (p :: (out.map (·.1)).filter (· != p)) := by
          rw [← herase]
          exact List.perm_cons_erase hidmem
        cases hq : qd with
        | nil =>
          simp only [hfind, hterm, if_true, hq, IdAlloc.WF] at hs ⊢
          refine List.Perm.trans ?_ hs
          rw [map_fst_filter_ne]
          have h1 : (fr ++ [p]) ++ (out.map (·.1)).filter (· != p) =
              fr ++ (p :: (out.map (·.1)).filter (· != p)) := by
            simp [List.append_assoc]
          rw [h1]
          exact (hperm0.append_left fr).symm
        | cons qq qrest =>
          simp only [hfind, hterm, if_true, hq, IdAlloc.WF] at hs ⊢
          refine List.Perm.trans ?_ hs
          simp only [List.map_append, List.map_cons, List.map_nil, map_fst_filter_ne]
          refine List.Perm.append_left fr ?_
          refine List.Perm.trans (List.perm_append_singleton p _) hperm0.symm
      · simpa [hfind, hterm] using hs
  | discard =>
    simpa [allocStep, discardSession, IdAlloc.WF] using hs

theorem allocRun_WF_aux : ∀ (ops : List AllocOp) (s : IdAlloc), s.WF →
    (ops.foldl allocStep s).WF := by
  intro ops
  induction ops with
  | nil => intro s hs; exact hs
  | cons op rest ih => intro s hs; exact ih (allocStep s op) (allocStep_WF s hs op)

theorem allocRun_WF (ops : List AllocOp) : (allocRun ops).WF :=
  allocRun_WF_aux ops IdAlloc.init IdAlloc.init_WF

/-- C2: In every reachable allocator state — under any interleaving of
requests and acknowledgments, serialized by the single command channel — no
16-bit packet identifier is assigned to two concurrently outstanding QoS 1/2
exchanges (the outstanding identifiers are pairwise distinct); and an
identifier enters the free pool only through the terminal acknowledgment of
its exchange (PUBACK for QoS 1, PUBCOMP for QoS 2) or through session
discard. -/
theorem packet_id_never_double_assigned :
    (∀ ops : List AllocOp, ((allocRun ops).outstanding.map (·.1)).Nodup) ∧
    (∀ (s : IdAlloc) (op : AllocOp) (id : PacketId),
      id ∈ (allocStep s op).free → id ∉ s.free →
      op = .discard ∨
      ∃ (q : QoS) (k : AckKind), op = .ack id k ∧ (id, q) ∈ s.outstanding ∧
        matchesTerminal q k = true) := by
  constructor
  · intro ops
    exact ((allocRun_WF ops).nodup).of_append_right
  · rintro ⟨fr, out, qd⟩ op id hnew hold
    cases op with
    | request q =>
      exfalso
      apply hold
      cases fr with
      | nil => simp only [allocStep, newRequest] at hnew; exact hnew
      | cons i rest =>
        simp only [allocStep, newRequest] at hnew
        exact List.mem_cons_of_mem i hnew
    | ack i k =>
      simp only [allocStep, terminalAck] at hnew
      cases hfind : out.find? (fun e => e.1 == i) with
      | none => exact absurd (by simpa [hfind] using hnew) hold
      | some pq =>
        obtain ⟨p, q⟩ := pq
        have hmem : (p, q) ∈ out := List.mem_of_find?_eq_some hfind
        have hp : p = i := by
          have hps := List.find?_some hfind
          simpa using hps
        subst hp
        by_cases hterm : matchesTerminal q k
        · cases hq : qd with
          | nil =>
            simp only [hfind, hterm, if_true, hq, List.mem_append,
              List.mem_singleton] at hnew
            rcases hnew with hnew | rfl
            · exact absurd hnew hold
            · exact Or.inr ⟨q, k, rfl, hmem, hterm⟩
          | cons qq qrest =>
            exact absurd (by simpa [hfind, hterm, hq] using hnew) hold
        · exact absurd (by simpa [hfind, hterm] using hnew) hold
    | discard => exact Or.inl rfl

/-- Witness for C2's freeing condition, at the one-entry allocator state
receiving the terminal PUBACK of its QoS 1 exchange. -/
theorem packet_id_never_double_assigned_witness :
    AllocOp.ack 1 .puback = AllocOp.discard ∨
    ∃ (q : QoS) (k : AckKind), AllocOp.ack 1 .puback = AllocOp.ack 1 k ∧
      (1, q) ∈ [((1 : PacketId), QoS.atLeastOnce)] ∧ matchesTerminal q k = true :=
  packet_id_never_double_assigned.2 ⟨[], [(1, .atLeastOnce)], []⟩ (.ack 1 .puback) 1
    (by decide) (by decide)

/-- C8: When all 65535 identifiers are in flight the free pool is empty; a new
publish/subscribe request then blocks — its outcome is `blocked` and it joins
the queue with the allocator otherwise unchanged, never an error (the request
intake has no failure outcome) — and it stays queued until a terminal
acknowledgment frees an identifier, at which point the head queued request is
assigned the freed identifier. -/
theorem packet_id_exhaustion_blocks :
    (∀ ops : List AllocOp, (allocRun ops).outstanding.length = maxPacketId →
      (allocRun ops).free = []) ∧
    (∀ (s : IdAlloc) (q : QoS), s.free = [] →
      (newRequest s q).1 = .blocked ∧
      (newRequest s q).2.queued = s.queued ++ [q] ∧
      (newRequest s q).2.outstanding = s.outstanding ∧
      (newRequest s q).2.free = []) ∧
    (∀ (s : IdAlloc) (id : PacketId) (q' : QoS) (k : AckKind) (qq : QoS) (qrest : List QoS),
      s.queued = qq :: qrest →
      s.outstanding.find? (fun e => e.1 == id) = some (id, q') →
      matchesTerminal q' k = true →
      (terminalAck s id k).outstanding =
        s.outstanding.filter (fun e => e.1 != id) ++ [(id, qq)] ∧
      (terminalAck s id k).queued = qrest) := by
  refine ⟨?_, ?_, ?_⟩
  · intro ops hlen
    have hperm := allocRun_WF ops
    have hlens := hperm.length_eq
    simp only [List.length_append, List.length_map, allIds_length, hlen] at hlens
    have : (allocRun ops).free.length = 0 := by omega
    exact List.length_eq_zero.mp this
  · rintro ⟨fr, out, qd⟩ q hfr
    subst hfr
    simp [newRequest]
  · rintro ⟨fr, out, qd⟩ id q' k qq qrest hq hfind hterm
    simp only at hq hfind
    subst hq
    simp [terminalAck, hfind, hterm]

/-- Witness for C8 at concrete exhausted and queued allocator states. -/
theorem packet_id_exhaustion_blocks_witness :
    ((newRequest ⟨[], [(1, QoS.atLeastOnce)], []⟩ QoS.exactlyOnce).1 = .blocked) ∧
    ((terminalAck ⟨[], [(1, QoS.atLeastOnce)], [QoS.exactlyOnce]⟩ 1 .puback).queued = []) := by
  constructor
  · exact (packet_id_exhaustion_blocks.2.1 ⟨[], [(1, .atLeastOnce)], []⟩ .exactlyOnce rfl).1
  · exact (packet_id_exhaustion_blocks.2.2 ⟨[], [(1, .atLeastOnce)], [.exactlyOnce]⟩ 1
      .atLeastOnce .puback .exactlyOnce [] rfl (by decide) (by decide)).2

/-! ## Reconnect Loop state machine (spec §4.2, §7) — claims C4 and C7 -/

/-- Modelled from the spec: the Reconnect Loop's states,
`Connecting → Connected → (on failure) BackingOff → Connecting → … →
ShuttingDown → Stopped` (spec §4.2). -/
inductive LoopState
  | connecting
  | connected
  | backingOff
  | shuttingDown
  | stopped
deriving DecidableEq, Repr

/-- Modelled from the spec: the attempt-fatal failure causes of the error
taxonomy (spec §7); every one is reconnect-retryable, none is client-fatal. -/
inductive FailureCause
  | transportError
  | protocolViolation
  | keepAliveTimeout
  | rejected
deriving DecidableEq, Repr

/-- Events driving the Reconnect Loop: a successful CONNACK, an attempt-fatal
failure, expiry of the backoff sleep, an explicit shutdown request, and the
observed disconnection during shutdown. -/
inductive LoopEvent
  | connackOk
  | attemptFailed (c : FailureCause)
  | backoffElapsed
  | shutdownReq
  | disconnected
deriving DecidableEq, Repr

/-- Modelled from the spec: the Reconnect Loop's transition function
(spec §4.2).  A shutdown request from any live state moves to `ShuttingDown`
(short-circuiting backoff waits); `Stopped` is reached only from
`ShuttingDown` once disconnection is observed; failures move live states to
`BackingOff`, which retries after the backoff sleep. -/
def loopStep (s : LoopState) (e : LoopEvent) : LoopState :=
  match s, e with
  | .stopped, _ => .stopped
  | _, .shutdownReq => .shuttingDown
  | .shuttingDown, .disconnected => .stopped
  | .shuttingDown, _ => .shuttingDown
  | .connecting, .connackOk => .connected
  | .connecting, .attemptFailed _ => .backingOff
  | .connected, .attemptFailed _ => .backingOff
  | .backingOff, .backoffElapsed => .connecting
  | s, _ => s

/-- The Reconnect Loop state after a sequence of events, from the initial
state `Connecting`. -/
def loopRun (evs : List LoopEvent) : LoopState :=
  evs.foldl loopStep .connecting

/-- Modelled from the spec: whether the application-facing Event Surface
sequence has ended — it ends only when the engine reaches `Stopped`
(spec §4.4), matching the termination of the `while let Some(event) =
client.next().await` loops at `src/examples/publisher.rs:153-155` and
`src/examples/will.rs:119`. -/
def eventSurfaceEnded (s : LoopState) : Bool :=
  match s with
  | .stopped => true
  | _ => false

theorem loopStep_no_shutdown (s : LoopState) (e : LoopEvent)
    (hs : s ≠ .shuttingDown ∧ s ≠ .stopped) (he : e ≠ .shutdownReq) :
    loopStep s e ≠ .shuttingDown ∧ loopStep s e ≠ .stopped := by
  cases s <;> cases e <;> simp_all [loopStep]

theorem loopRun_no_shutdown_aux :
    ∀ (evs : List LoopEvent) (s : LoopState), (∀ e ∈ evs, e ≠ .shutdownReq) →
      s ≠ .shuttingDown ∧ s ≠ .stopped →
      (evs.foldl loopStep s) ≠ .shuttingDown ∧ (evs.foldl loopStep s) ≠ .stopped := by
  intro evs
  induction evs with
  | nil => intro s _ hs; exact hs
  | cons e rest ih =>
    intro s hevs hs
    exact ih (loopStep s e) (fun x hx => hevs x (List.mem_cons_of_mem e hx))
      (loopStep_no_shutdown s e hs (hevs e (List.mem_cons_self e rest)))

/-- C4: The Reconnect Loop never reaches `Stopped` without an explicit
shutdown request — no sequence of transport failures, protocol violations,
keep-alive timeouts or broker CONNECT rejections terminates it — and the
application-facing event sequence ends exactly when the engine is
`Stopped`. -/
theorem stopped_only_via_shutdown :
    (∀ evs : List LoopEvent, (∀ e ∈ evs, e ≠ .shutdownReq) →
      loopRun evs ≠ .stopped ∧ eventSurfaceEnded (loopRun evs) = false) ∧
    (∀ s : LoopState, eventSurfaceEnded s = true ↔ s = .stopped) := by
  constructor
  · intro evs hevs
    have h := loopRun_no_shutdown_aux evs .connecting hevs (by simp)
    have h2 : loopRun evs ≠ .stopped := h.2
    refine ⟨h2, ?_⟩
    cases hr : loopRun evs <;> simp_all [eventSurfaceEnded]
  · intro s
    cases s <;> simp [eventSurfaceEnded]

/-- Witness for C4: a shutdown-free run through every failure cause does not
stop the loop. -/
theorem stopped_only_via_shutdown_witness :
    loopRun [.connackOk, .attemptFailed .transportError, .backoffElapsed,
      .attemptFailed .protocolViolation, .backoffElapsed, .connackOk,
      .attemptFailed .keepAliveTimeout, .backoffElapsed,
      .attemptFailed .rejected] ≠ .stopped :=
  (stopped_only_via_shutdown.1 _ (by decide)).1

/-- Modelled from the spec: errors of the shutdown handle (spec §6 exposes
`shutdown() -> Result<(), Error>`); the modelled engine never produces one on
an explicit shutdown. -/
inductive ShutdownError
  | clientDoesNotExist
deriving DecidableEq, Repr

/-- Modelled from the spec: one `shutdown()` call — the request is enqueued
(`shutdownReq`), the loop tears the transport down, disconnection is observed,
and the call resolves `ok` (spec §4.2, §5, §6). -/
def shutdownCall (s : LoopState) : Except ShutdownError Unit × LoopState :=
  (Except.ok (), loopStep (loopStep s .shutdownReq) .disconnected)

/-- C7: Calling `shutdown()` a second time after a first `shutdown()`
completes both calls without error; the engine is `Stopped` after each call
and stays `Stopped` under every further event — the transport is never
reopened and no new connection attempt is started. -/
theorem shutdown_idempotent (s0 : LoopState) :
    (shutdownCall s0).1 = .ok () ∧
    (shutdownCall (shutdownCall s0).2).1 = .ok () ∧
    (shutdownCall s0).2 = .stopped ∧
    (shutdownCall (shutdownCall s0).2).2 = .stopped ∧
    (∀ e : LoopEvent, loopStep (shutdownCall (shutdownCall s0).2).2 e = .stopped) := by
  cases s0 <;> exact ⟨rfl, rfl, rfl, rfl, fun e => by cases e <;> rfl⟩

/-! ## Keep-Alive Timer (spec §2, §4.1, §8) — claim C6 -/

/-- Modelled from the spec: Keep-Alive Timer state within one connection
attempt — time (in ticks) since the last outbound traffic, time since the
last inbound traffic (PINGRESP or any other packet), and whether a PINGREQ
has been fired since the last traffic (spec §4.1). -/
structure KAState where
  sinceOutbound : Nat
  sinceInbound : Nat
  pingSent : Bool
deriving DecidableEq, Repr

/-- Timer state at the start of a connection attempt. -/
def KAState.fresh : KAState := ⟨0, 0, false⟩

/-- Timer-visible events: a unit of idle time, an outbound packet, or an
inbound packet. -/
inductive KAEvent
  | tick
  | outboundTraffic
  | inboundTraffic
deriving DecidableEq, Repr

/-- Actions the Keep-Alive Timer can demand of the Connection Actor. -/
inductive KAAction
  | sendPingreq
  | failKeepAliveTimeout
deriving DecidableEq, Repr

/-- Modelled from the spec: one step of the Keep-Alive Timer.  On a tick the
attempt first fails with `KeepAliveTimeout` if nothing has been seen inbound
for the grace window of 1.5× the keep-alive interval (`3 * ka ≤ 2 * elapsed`);
otherwise exactly one PINGREQ fires once no outbound traffic has occurred for
the keep-alive interval (the PINGREQ itself is outbound traffic and resets
the outbound clock).  Traffic in either direction resets the corresponding
clock and the ping flag (spec §4.1). -/
def kaStep (ka : Nat) (s : KAState) (e : KAEvent) : Option KAAction × KAState :=
  match e with
  | .outboundTraffic => (none, ⟨0, s.sinceInbound, false⟩)
  | .inboundTraffic => (none, ⟨s.sinceOutbound, 0, false⟩)
  | .tick =>
    if 3 * ka ≤ 2 * (s.sinceInbound + 1) then
      (some .failKeepAliveTimeout, ⟨s.sinceOutbound + 1, s.sinceInbound + 1, s.pingSent⟩)
    else if ka ≤ s.sinceOutbound + 1 ∧ s.pingSent = false then
      (some .sendPingreq, ⟨0, s.sinceInbound + 1, true⟩)
    else
      (none, ⟨s.sinceOutbound + 1, s.sinceInbound + 1, s.pingSent⟩)

/-- The actions demanded across a sequence of timer events; a
`KeepAliveTimeout` ends the attempt, so the run stops there. -/
def kaRun (ka : Nat) (s : KAState) : List KAEvent → List KAAction
  | [] => []
  | e :: rest =>
    match kaStep ka s e with
    | (some .failKeepAliveTimeout, _) => [.failKeepAliveTimeout]
    | (some .sendPingreq, s') => .sendPingreq :: kaRun ka s' rest
    | (none, s') => kaRun ka s' rest

theorem kaRun_pinged (ka : Nat) :
    ∀ (n o i : Nat), kaRun ka ⟨o, i, true⟩ (List.replicate n .tick) =
      if 1 ≤ n ∧ 3 * ka ≤ 2 * (i + n) then [.failKeepAliveTimeout] else [] := by
  intro n
  induction n with
  | zero => intro o i; simp [kaRun]
  | succ m ih =>
    intro o i
    rw [List.replicate_succ]
    by_cases hto : 3 * ka ≤ 2 * (i + 1)
    · have hcond : 1 ≤ m + 1 ∧ 3 * ka ≤ 2 * (i + (m + 1)) := ⟨by omega, by omega⟩
      simp [kaRun, kaStep, hto, hcond]
    · have hstep : kaStep ka ⟨o, i, true⟩ .tick = (none, ⟨o + 1, i + 1, true⟩) := by
        simp [kaStep, hto]
      rw [kaRun, hstep]
      dsimp only
      rw [ih (o + 1) (i + 1)]
      by_cases hm : 1 ≤ m ∧ 3 * ka ≤ 2 * (i + 1 + m)
      · rw [if_pos hm, if_pos (show 1 ≤ m + 1 ∧ 3 * ka ≤ 2 * (i + (m + 1)) by omega)]
      · rw [if_neg hm, if_neg (show ¬(1 ≤ m + 1 ∧ 3 * ka ≤ 2 * (i + (m + 1))) by omega)]

theorem kaRun_idle (ka : Nat) (hka : 0 < ka) :
    ∀ (n j : Nat), j < ka → kaRun ka ⟨j, j, false⟩ (List.replicate n .tick) =
      if ka ≤ j + n then
        (if 3 * ka ≤ 2 * (j + n) then [.sendPingreq, .failKeepAliveTimeout]
         else [.sendPingreq])
      else [] := by
  intro n
  induction n with
  | zero =>
    intro j hj
    have hnot : ¬ ka ≤ j + 0 := by omega
    rw [if_neg hnot]
    simp [kaRun]
  | succ m ih =>
    intro j hj
    rw [List.replicate_succ]
    have hto : ¬ 3 * ka ≤ 2 * (j + 1) := by omega
    by_cases hping : ka ≤ j + 1
    · have hstep : kaStep ka ⟨j, j, false⟩ .tick = (some .sendPingreq, ⟨0, j + 1, true⟩) := by
        simp [kaStep, hto, hping]
      rw [kaRun, hstep]
      dsimp only
      rw [kaRun_pinged ka m 0 (j + 1)]
      have hka2 : ka ≤ j + (m + 1) := by omega
      by_cases hfail : 3 * ka ≤ 2 * (j + (m + 1))
      · have : 1 ≤ m ∧ 3 * ka ≤ 2 * (j + 1 + m) := by
          constructor
          · by_contra hc
            have hm0 : m = 0 := by omega
            omega
          · omega
        simp [this, hka2, hfail]
      · have : ¬(1 ≤ m ∧ 3 * ka ≤ 2 * (j + 1 + m)) := by omega
        simp [this, hka2, hfail]
    · have hstep : kaStep ka ⟨j, j, false⟩ .tick = (none, ⟨j + 1, j + 1, false⟩) := by
        simp [kaStep, hto, hping]
      rw [kaRun, hstep]
      dsimp only
      rw [ih (j + 1) (by omega)]
      have : (j + 1 + m) = (j + (m + 1)) := by omega
      rw [this]

/-- C6: Within one connection attempt with keep-alive interval `ka`, if no
traffic occurs for `ka` ticks then exactly one PINGREQ is sent before any
next traffic, and if nothing is observed for 1.5× `ka` (`3 * ka ≤ 2 * n`)
the attempt fails with `KeepAliveTimeout`; traffic in either direction resets
the corresponding clock and the ping flag. -/
theorem keep_alive_ping_and_timeout (ka : Nat) (hka : 0 < ka) :
    (∀ n : Nat, kaRun ka KAState.fresh (List.replicate n .tick) =
      if ka ≤ n then
        (if 3 * ka ≤ 2 * n then [.sendPingreq, .failKeepAliveTimeout]
         else [.sendPingreq])
      else []) ∧
    (∀ s : KAState, kaStep ka s .outboundTraffic = (none, ⟨0, s.sinceInbound, false⟩) ∧
      kaStep ka s .inboundTraffic = (none, ⟨s.sinceOutbound, 0, false⟩)) := by
  constructor
  · intro n
    have h := kaRun_idle ka hka n 0 hka
    simpa using h
  · intro s
    exact ⟨rfl, rfl⟩

/-- Witness for C6 at keep-alive interval 2: three idle ticks produce exactly
one PINGREQ and then the `KeepAliveTimeout` failure. -/
theorem keep_alive_ping_and_timeout_witness :
    kaRun 2 KAState.fresh (List.replicate 3 .tick) =
      [.sendPingreq, .failKeepAliveTimeout] := by
  have h := (keep_alive_ping_and_timeout 2 (by decide)).1 3
  simpa using h

/-! ## Connection Actor and Session (spec §3, §4.1, §4.3) — claims C3 and C5

The actor owns the outstanding-entry map and the completion futures of the
Handle Multiplexer.  Commands (publish, shutdown) arrive on the single FIFO
command channel; inbound acknowledgments arrive from the broker; an attempt's
input list is one serialized interleaving of the two (spec §5).  A completion
future is a resolution counter, so that resolved-exactly-once is the
statement that every counter stays at most 1. -/

abbrev ReqId := Nat

/-- One outstanding outbound QoS 1/2 entry of the Session: the originating
request, the packet identifier it was sent under, and the publication
(spec §3). -/
structure OutEntry where
  reqId : ReqId
  pkid : PacketId
  pub : Publication
deriving DecidableEq, Repr

/-- Outbound wire packets of the modelled actor. -/
inductive OutPacket
  | publish (pkid : PacketId) (dup : Bool) (pub : Publication)
  | pubrel (pkid : PacketId)
  | disconnect
deriving DecidableEq, Repr

/-- Inputs the Connection Actor serves during one attempt: commands from the
FIFO command channel and inbound acknowledgments from the broker. -/
inductive ActorIn
  | cmdPublish (rid : ReqId) (pub : Publication)
  | cmdShutdown (rid : ReqId)
  | inPuback (pkid : PacketId)
  | inPubrec (pkid : PacketId)
  | inPubcomp (pkid : PacketId)
deriving DecidableEq, Repr

/-- Why an attempt's input processing halted: an explicit shutdown (after the
DISCONNECT is written and disconnection observed) or a protocol violation
(unexpected acknowledgment), which is attempt-fatal (spec §4.1, §7). -/
inductive Halt
  | shutdown (rid : ReqId)
  | violation
deriving DecidableEq, Repr

/-- Modelled from the spec: the Connection Actor's session-engine state — the
outstanding QoS 1/2 outbound entries, the completion futures (request id →
resolution count), and the next fresh packet identifier (spec §3, §4.3). -/
structure Actor where
  outstanding : List OutEntry
  futures : List (ReqId × Nat)
  nextPk : PacketId
deriving DecidableEq, Repr

/-- Resolution count of a request's completion future (0 = still pending). -/
def futCount : List (ReqId × Nat) → ReqId → Nat
  | [], _ => 0
  | f :: rest, rid => if f.1 = rid then f.2 else futCount rest rid

/-- Resolving a completion future: its resolution count is incremented. -/
def resolveFut (fs : List (ReqId × Nat)) (rid : ReqId) : List (ReqId × Nat) :=
  fs.map (fun f => if f.1 = rid then (f.1, f.2 + 1) else f)

/-- Modelled from the spec: one Connection Actor step (spec §4.1).  A publish
command records its QoS 1/2 entry before the packet counts as sent and emits
the PUBLISH (QoS 0 publishes carry no identifier and resolve at the send); a
shutdown command emits DISCONNECT, resolves on the observed disconnection and
ends the attempt; PUBACK/PUBCOMP matching an outstanding entry of the right
QoS remove the entry and resolve its future; PUBREC on a QoS 2 entry emits
PUBREL; any unexpected acknowledgment is a protocol violation ending the
attempt. -/
def actorStep (a : Actor) (inp : ActorIn) : List OutPacket × Actor × Option Halt :=
  match inp with
  | .cmdPublish rid pub =>
    match pub.qos with
    | .atMostOnce =>
      ([.publish 0 false pub],
       { a with futures := resolveFut (a.futures ++ [(rid, 0)]) rid }, none)
    | _ =>
      ([.publish a.nextPk false pub],
       { outstanding := a.outstanding ++ [⟨rid, a.nextPk, pub⟩],
         futures := a.futures ++ [(rid, 0)],
         nextPk := a.nextPk + 1 }, none)
  | .cmdShutdown rid =>
    ([.disconnect],
     { a with futures := resolveFut (a.futures ++ [(rid, 0)]) rid }, some (.shutdown rid))
  | .inPuback pkid =>
    match a.outstanding.find? (fun e => e.pkid == pkid) with
    | some e =>
      if e.pub.qos = .atLeastOnce then
        ([], { a with outstanding := a.outstanding.filter (fun x => x.pkid != pkid),
                      futures := resolveFut a.futures e.reqId }, none)
      else ([], a, some .violation)
    | none => ([], a, some .violation)
  | .inPubrec pkid =>
    match a.outstanding.find? (fun e => e.pkid == pkid) with
    | some e =>
      if e.pub.qos = .exactlyOnce then ([.pubrel pkid], a, none)
      else ([], a, some .violation)
    | none => ([], a, some .violation)
  | .inPubcomp pkid =>
    match a.outstanding.find? (fun e => e.pkid == pkid) with
    | some e =>
      if e.pub.qos = .exactlyOnce then
        ([], { a with outstanding := a.outstanding.filter (fun x => x.pkid != pkid),
                      futures := resolveFut a.futures e.reqId }, none)
      else ([], a, some .violation)
    | none => ([], a, some .violation)

/-- Serving an attempt's inputs in order, stopping at a halt; returns the
wire log of the attempt, the final session state, and the halt cause if
any. -/
def runInputs (a : Actor) : List ActorIn → List OutPacket × Actor × Option Halt
  | [] => ([], a, none)
  | inp :: rest =>
    match actorStep a inp with
    | (ps, a', some h) => (ps, a', some h)
    | (ps, a', none) =>
      let (ps', a'', h) := runInputs a' rest
      (ps ++ ps', a'', h)

/-- The retransmission of an outstanding entry: the same packet identifier
and publication, with the DUP flag set. -/
def retransmit (e : OutEntry) : OutPacket :=
  .publish e.pkid true e.pub

/-- Renumbering outstanding entries as new requests with fresh packet
identifiers, preserving request id and publication. -/
def renumber (pk : PacketId) : List OutEntry → List OutEntry × PacketId
  | [] => ([], pk)
  | e :: rest =>
    let (rs, pk') := renumber (pk + 1) rest
    (⟨e.reqId, pk, e.pub⟩ :: rs, pk')

/-- Modelled from the spec: CONNACK handling at the start of a successful
attempt (spec §4.1).  With session-present = true every outstanding QoS 1/2
entry is retransmitted with DUP set before any new traffic; with
session-present = false the stale entries are discarded after being marked
for replay as new requests (fresh identifiers, DUP clear), and no completion
future is resolved by the replay. -/
def onConnack (sessionPresent : Bool) (a : Actor) : List OutPacket × Actor :=
  if sessionPresent then
    (a.outstanding.map retransmit, a)
  else
    let (rs, pk') := renumber a.nextPk a.outstanding
    (rs.map (fun e => .publish e.pkid false e.pub),
     { outstanding := rs, futures := a.futures, nextPk := pk' })

/-- One whole successful attempt: CONNACK handling (retransmission or
replay), then the attempt's inputs in order. -/
def runAttempt (sessionPresent : Bool) (a : Actor) (ins : List ActorIn) :
    List OutPacket × Actor × Option Halt :=
  let (retrans, a1) := onConnack sessionPresent a
  let (ps, a2, h) := runInputs a1 ins
  (retrans ++ ps, a2, h)

/-- The request ids of the commands in an input list, in enqueue order. -/
def insRids : List ActorIn → List ReqId
  | [] => []
  | .cmdPublish rid _ :: r => rid :: insRids r
  | .cmdShutdown rid :: r => rid :: insRids r
  | _ :: r => insRids r

/-- The publications of the publish commands in an input list, in enqueue
order. -/
def cmdPubs : List ActorIn → List Publication
  | [] => []
  | .cmdPublish _ pub :: r => pub :: cmdPubs r
  | _ :: r => cmdPubs r

/-- The publications of the non-retransmitted (DUP-clear) PUBLISH packets in
a wire log, in wire order. -/
def newPubs : List OutPacket → List Publication
  | [] => []
  | .publish _ false pub :: r => pub :: newPubs r
  | _ :: r => newPubs r

/-- Whether an input list contains a terminal acknowledgment (PUBACK or
PUBCOMP) for the given packet identifier. -/
def hasAckFor (pk : PacketId) : List ActorIn → Bool
  | [] => false
  | .inPuback p :: r => p == pk || hasAckFor pk r
  | .inPubcomp p :: r => p == pk || hasAckFor pk r
  | _ :: r => hasAckFor pk r

/-- Session-engine invariant: outstanding packet identifiers are distinct and
below the fresh-identifier bound, request ids of futures and of outstanding
entries are distinct, every outstanding entry is a known QoS 1/2 request
whose future is still pending, and no future has resolved more than once. -/
def Actor.Inv (a : Actor) : Prop :=
  (a.outstanding.map (·.pkid)).Nodup ∧
  (∀ e ∈ a.outstanding, e.pkid < a.nextPk) ∧
  (a.futures.map (·.1)).Nodup ∧
  (a.outstanding.map (·.reqId)).Nodup ∧
  (∀ e ∈ a.outstanding, e.reqId ∈ a.futures.map (·.1) ∧
    e.pub.qos ≠ .atMostOnce ∧ futCount a.futures e.reqId = 0) ∧
  (∀ f ∈ a.futures, f.2 ≤ 1)

/-- Input freshness: the command request ids are new and pairwise distinct
(every handle invocation carries its own completion future, spec §4.3). -/
def FreshFor (a : Actor) (ins : List ActorIn) : Prop :=
  (a.futures.map (·.1) ++ insRids ins).Nodup

theorem futCount_nil (r : ReqId) : futCount [] r = 0 := rfl

theorem futCount_cons (f : ReqId × Nat) (rest : List (ReqId × Nat)) (r : ReqId) :
    futCount (f :: rest) r = if f.1 = r then f.2 else futCount rest r := rfl

theorem resolveFut_cons (f : ReqId × Nat) (rest : List (ReqId × Nat)) (rid : ReqId) :
    resolveFut (f :: rest) rid =
      (if f.1 = rid then (f.1, f.2 + 1) else f) :: resolveFut rest rid := rfl

theorem futCount_append_ne (fs : List (ReqId × Nat)) (rid r : ReqId) (c : Nat)
    (h : r ≠ rid) : futCount (fs ++ [(rid, c)]) r = futCount fs r := by
  induction fs with
  | nil =>
    rw [List.nil_append, futCount_cons,
      if_neg (show ¬((rid, c).1 = r) from fun hc => h hc.symm)]
  | cons f rest ih =>
    rw [List.cons_append, futCount_cons, futCount_cons, ih]

theorem futCount_append_fresh (fs : List (ReqId × Nat)) (rid : ReqId) (c : Nat)
    (h : rid ∉ fs.map (·.1)) : futCount (fs ++ [(rid, c)]) rid = c := by
  induction fs with
  | nil => rw [List.nil_append, futCount_cons, if_pos rfl]
  | cons f rest ih =>
    simp only [List.map_cons, List.mem_cons, not_or] at h
    rw [List.cons_append, futCount_cons,
      if_neg (show ¬(f.1 = rid) from fun hc => h.1 hc.symm), ih h.2]

theorem futCount_resolve_ne (fs : List (ReqId × Nat)) (rid r : ReqId)
    (h : r ≠ rid) : futCount (resolveFut fs rid) r = futCount fs r := by
  induction fs with
  | nil => rfl
  | cons f rest ih =>
    rw [resolveFut_cons]
    by_cases hf : f.1 = rid
    · have hf1 : ¬(f.1 = r) := fun hc => h (hc ▸ hf)
      rw [if_pos hf, futCount_cons, futCount_cons,
        if_neg (show ¬((f.1, f.2 + 1).1 = r) from hf1), if_neg hf1, ih]
    · rw [if_neg hf, futCount_cons, futCount_cons, ih]

theorem resolveFut_of_not_mem (fs : List (ReqId × Nat)) (rid : ReqId)
    (h : rid ∉ fs.map (·.1)) : resolveFut fs rid = fs := by
  induction fs with
  | nil => rfl
  | cons f rest ih =>
    simp only [List.map_cons, List.mem_cons, not_or] at h
    rw [resolveFut_cons, if_neg (show ¬(f.1 = rid) from fun hc => h.1 hc.symm), ih h.2]

theorem futCount_resolve_self (fs : List (ReqId × Nat)) (rid : ReqId)
    (h : rid ∈ fs.map (·.1)) :
    futCount (resolveFut fs rid) rid = futCount fs rid + 1 := by
  induction fs with
  | nil => simp at h
  | cons f rest ih =>
    rw [resolveFut_cons]
    by_cases hf : f.1 = rid
    · rw [if_pos hf, futCount_cons, futCount_cons,
        if_pos (show (f.1, f.2 + 1).1 = rid from hf), if_pos hf]
    · simp only [List.map_cons, List.mem_cons] at h
      rcases h with h | h
      · exact absurd h.symm hf
      · rw [if_neg hf, futCount_cons, futCount_cons, if_neg hf, if_neg hf, ih h]

theorem keys_resolveFut (fs : List (ReqId × Nat)) (rid : ReqId) :
    (resolveFut fs rid).map (·.1) = fs.map (·.1) := by
  induction fs with
  | nil => rfl
  | cons f rest ih =>
    rw [resolveFut_cons]
    by_cases hf : f.1 = rid
    · rw [if_pos hf, List.map_cons, List.map_cons, ih]
    · rw [if_neg hf, List.map_cons, List.map_cons, ih]

theorem futCount_le_one (fs : List (ReqId × Nat)) (rid : ReqId)
    (h : ∀ f ∈ fs, f.2 ≤ 1) : futCount fs rid ≤ 1 := by
  induction fs with
  | nil => exact Nat.zero_le 1
  | cons f rest ih =>
    rw [futCount_cons]
    by_cases hf : f.1 = rid
    · rw [if_pos hf]; exact h f (List.mem_cons_self f rest)
    · rw [if_neg hf]; exact ih (fun g hg => h g (List.mem_cons_of_mem f hg))

theorem resolveFut_once (fs : List (ReqId × Nat)) (rid : ReqId)
    (hnd : (fs.map (·.1)).Nodup) (hc : futCount fs rid = 0)
    (h : ∀ f ∈ fs, f.2 ≤ 1) : ∀ f ∈ resolveFut fs rid, f.2 ≤ 1 := by
  induction fs with
  | nil => intro g hg; simp [resolveFut] at hg
  | cons f rest ih =>
    simp only [List.map_cons, List.nodup_cons] at hnd
    intro g hg
    rw [resolveFut_cons] at hg
    by_cases hf : f.1 = rid
    · rw [if_pos hf] at hg
      rcases List.mem_cons.mp hg with rfl | hg2
      · have hfz : f.2 = 0 := by
          have hcc : futCount (f :: rest) rid = f.2 := by
            rw [futCount_cons, if_pos hf]
          omega
        simp [hfz]
      · have hrid : rid ∉ rest.map (·.1) := hf ▸ hnd.1
        rw [resolveFut_of_not_mem rest rid hrid] at hg2
        exact h g (List.mem_cons_of_mem f hg2)
    · rw [if_neg hf] at hg
      rcases List.mem_cons.mp hg with rfl | hg2
      · exact h g (List.mem_cons_self g rest)
      · have hc2 : futCount rest rid = 0 := by
          have hcc : futCount (f :: rest) rid = futCount rest rid := by
            rw [futCount_cons, if_neg hf]
          omega
        exact ih hnd.2 hc2 (fun x hx => h x (List.mem_cons_of_mem f hx)) g hg2

theorem nodup_concat {α : Type} {l : List α} {x : α} (hnd : l.Nodup) (hx : x ∉ l) :
    (l ++ [x]).Nodup :=
  ((List.perm_append_singleton x l).symm).nodup (List.nodup_cons.mpr ⟨hx, hnd⟩)

theorem inv_after_resolve_new (a : Actor) (rid : ReqId) (ha : a.Inv)
    (hfr : rid ∉ a.futures.map (·.1)) :
    Actor.Inv ⟨a.outstanding, resolveFut (a.futures ++ [(rid, 0)]) rid, a.nextPk⟩ := by
  obtain ⟨h1, h2, h3, h4, h5, h6⟩ := ha
  have hkeys : (resolveFut (a.futures ++ [(rid, 0)]) rid).map (·.1) =
      a.futures.map (·.1) ++ [rid] := by
    rw [keys_resolveFut, List.map_append]
    rfl
  refine ⟨h1, h2, ?_, h4, ?_, ?_⟩
  · rw [hkeys]
    exact nodup_concat h3 hfr
  · intro e he
    obtain ⟨hek, heq, hec⟩ := h5 e he
    have hne : e.reqId ≠ rid := fun hc => hfr (hc ▸ hek)
    refine ⟨?_, heq, ?_⟩
    · rw [hkeys]
      exact List.mem_append_left _ hek
    · rw [futCount_resolve_ne _ _ _ hne, futCount_append_ne _ _ _ _ hne]
      exact hec
  · apply resolveFut_once
    · rw [List.map_append]
      exact nodup_concat h3 hfr
    · exact futCount_append_fresh _ _ _ hfr
    · intro f hf
      rcases List.mem_append.mp hf with hf | hf
      · exact h6 f hf
      · rw [List.mem_singleton] at hf
        rw [hf]
        exact Nat.zero_le 1

theorem inv_after_publish (a : Actor) (rid : ReqId) (pub : Publication) (ha : a.Inv)
    (hfr : rid ∉ a.futures.map (·.1)) (hq : pub.qos ≠ .atMostOnce) :
    Actor.Inv ⟨a.outstanding ++ [⟨rid, a.nextPk, pub⟩],
               a.futures ++ [(rid, 0)], a.nextPk + 1⟩ := by
  obtain ⟨h1, h2, h3, h4, h5, h6⟩ := ha
  have hpknew : a.nextPk ∉ a.outstanding.map (·.pkid) := by
    intro hc
    rcases List.mem_map.mp hc with ⟨e, he, hpk⟩
    have hpk' : e.pkid = a.nextPk := hpk
    have hlt := h2 e he
    exact Nat.lt_irrefl _ (hpk' ▸ hlt)
  have hridout : rid ∉ a.outstanding.map (·.reqId) := by
    intro hc
    rcases List.mem_map.mp hc with ⟨e, he, hr⟩
    exact hfr (hr ▸ (h5 e he).1)
  refine ⟨?_, ?_, ?_, ?_, ?_, ?_⟩
  · simp only [List.map_append, List.map_cons, List.map_nil]
    exact nodup_concat h1 hpknew
  · intro e he
    rcases List.mem_append.mp he with he | he
    · show e.pkid < a.nextPk + 1
      exact Nat.lt_succ_of_lt (h2 e he)
    · rw [List.mem_singleton] at he
      rw [he]
      exact Nat.lt_succ_self _
  · simp only [List.map_append, List.map_cons, List.map_nil]
    exact nodup_concat h3 hfr
  · simp only [List.map_append, List.map_cons, List.map_nil]
    exact nodup_concat h4 hridout
  · intro e he
    rcases List.mem_append.mp he with he | he
    · obtain ⟨hek, heq, hec⟩ := h5 e he
      have hne : e.reqId ≠ rid := fun hc => hfr (hc ▸ hek)
      refine ⟨?_, heq, ?_⟩
      · simp only [List.map_append, List.map_cons, List.map_nil]
        exact List.mem_append_left _ hek
      · rw [futCount_append_ne _ _ _ _ hne]
        exact hec
    · rw [List.mem_singleton] at he
      rw [he]
      refine ⟨?_, hq, ?_⟩
      · simp only [List.map_append, List.map_cons, List.map_nil]
        exact List.mem_append_right _ (List.mem_singleton.mpr rfl)
      · exact futCount_append_fresh _ _ _ hfr
  · intro f hf
    rcases List.mem_append.mp hf with hf | hf
    · exact h6 f hf
    · rw [List.mem_singleton] at hf
      rw [hf]
      exact Nat.zero_le 1

theorem inv_after_ack (a : Actor) (e : OutEntry) (ha : a.Inv) (he : e ∈ a.outstanding) :
    Actor.Inv ⟨a.outstanding.filter (fun x => x.pkid != e.pkid),
               resolveFut a.futures e.reqId, a.nextPk⟩ := by
  obtain ⟨h1, h2, h3, h4, h5, h6⟩ := ha
  have hsub : List.Sublist (a.outstanding.filter (fun x => x.pkid != e.pkid)) a.outstanding :=
    List.filter_sublist _
  refine ⟨?_, ?_, ?_, ?_, ?_, ?_⟩
  · exact h1.sublist (hsub.map (·.pkid))
  · intro x hx
    exact h2 x (hsub.subset hx)
  · rw [keys_resolveFut]
    exact h3
  · exact h4.sublist (hsub.map (·.reqId))
  · intro x hx
    have hxo : x ∈ a.outstanding := hsub.subset hx
    obtain ⟨hxk, hxq, hxc⟩ := h5 x hxo
    have hxne : x ≠ e := by
      intro hc
      subst hc
      have hxf := (List.mem_filter.mp hx).2
      simp at hxf
    have hrne : x.reqId ≠ e.reqId := by
      intro hc
      exact hxne (List.inj_on_of_nodup_map h4 hxo he hc)
    refine ⟨?_, hxq, ?_⟩
    · rw [keys_resolveFut]
      exact hxk
    · rw [futCount_resolve_ne _ _ _ hrne]
      exact hxc
  · exact resolveFut_once _ _ h3 (h5 e he).2.2 h6

theorem actorStep_cmdPublish_q0 (a : Actor) (rid : ReqId) (pub : Publication)
    (hq : pub.qos = .atMostOnce) :
    actorStep a (.cmdPublish rid pub) =
      ([.publish 0 false pub],
       ⟨a.outstanding, resolveFut (a.futures ++ [(rid, 0)]) rid, a.nextPk⟩, none) := by
  simp [actorStep, hq]

theorem actorStep_cmdPublish_q12 (a : Actor) (rid : ReqId) (pub : Publication)
    (hq : pub.qos ≠ .atMostOnce) :
    actorStep a (.cmdPublish rid pub) =
      ([.publish a.nextPk false pub],
       ⟨a.outstanding ++ [⟨rid, a.nextPk, pub⟩], a.futures ++ [(rid, 0)], a.nextPk + 1⟩,
       none) := by
  cases hqq : pub.qos with
  | atMostOnce => exact absurd hqq hq
  | atLeastOnce => simp [actorStep, hqq]
  | exactlyOnce => simp [actorStep, hqq]

theorem actorStep_cmdShutdown (a : Actor) (rid : ReqId) :
    actorStep a (.cmdShutdown rid) =
      ([.disconnect],
       ⟨a.outstanding, resolveFut (a.futures ++ [(rid, 0)]) rid, a.nextPk⟩,
       some (.shutdown rid)) := rfl

theorem actorStep_inPuback_found (a : Actor) (pk : PacketId) (e : OutEntry)
    (hfind : a.outstanding.find? (fun x => x.pkid == pk) = some e)
    (hq : e.pub.qos = .atLeastOnce) :
    actorStep a (.inPuback pk) =
      ([], ⟨a.outstanding.filter (fun x => x.pkid != pk),
            resolveFut a.futures e.reqId, a.nextPk⟩, none) := by
  simp [actorStep, hfind, hq]

theorem actorStep_inPuback_found_bad (a : Actor) (pk : PacketId) (e : OutEntry)
    (hfind : a.outstanding.find? (fun x => x.pkid == pk) = some e)
    (hq : e.pub.qos ≠ .atLeastOnce) :
    actorStep a (.inPuback pk) = ([], a, some .violation) := by
  simp [actorStep, hfind, hq]

theorem actorStep_inPuback_none (a : Actor) (pk : PacketId)
    (hfind : a.outstanding.find? (fun x => x.pkid == pk) = none) :
    actorStep a (.inPuback pk) = ([], a, some .violation) := by
  simp [actorStep, hfind]

theorem actorStep_inPubrec_found (a : Actor) (pk : PacketId) (e : OutEntry)
    (hfind : a.outstanding.find? (fun x => x.pkid == pk) = some e)
    (hq : e.pub.qos = .exactlyOnce) :
    actorStep a (.inPubrec pk) = ([.pubrel pk], a, none) := by
  simp [actorStep, hfind, hq]

theorem actorStep_inPubrec_found_bad (a : Actor) (pk : PacketId) (e : OutEntry)
    (hfind : a.outstanding.find? (fun x => x.pkid == pk) = some e)
    (hq : e.pub.qos ≠ .exactlyOnce) :
    actorStep a (.inPubrec pk) = ([], a, some .violation) := by
  simp [actorStep, hfind, hq]

theorem actorStep_inPubrec_none (a : Actor) (pk : PacketId)
    (hfind : a.outstanding.find? (fun x => x.pkid == pk) = none) :
    actorStep a (.inPubrec pk) = ([], a, some .violation) := by
  simp [actorStep, hfind]

theorem actorStep_inPubcomp_found (a : Actor) (pk : PacketId) (e : OutEntry)
    (hfind : a.outstanding.find? (fun x => x.pkid == pk) = some e)
    (hq : e.pub.qos = .exactlyOnce) :
    actorStep a (.inPubcomp pk) =
      ([], ⟨a.outstanding.filter (fun x => x.pkid != pk),
            resolveFut a.futures e.reqId, a.nextPk⟩, none) := by
  simp [actorStep, hfind, hq]

theorem actorStep_inPubcomp_found_bad (a : Actor) (pk : PacketId) (e : OutEntry)
    (hfind : a.outstanding.find? (fun x => x.pkid == pk) = some e)
    (hq : e.pub.qos ≠ .exactlyOnce) :
    actorStep a (.inPubcomp pk) = ([], a, some .violation) := by
  simp [actorStep, hfind, hq]

theorem actorStep_inPubcomp_none (a : Actor) (pk : PacketId)
    (hfind : a.outstanding.find? (fun x => x.pkid == pk) = none) :
    actorStep a (.inPubcomp pk) = ([], a, some .violation) := by
  simp [actorStep, hfind]

theorem Actor.Inv.pend {a : Actor} (ha : a.Inv) :
    ∀ e ∈ a.outstanding, futCount a.futures e.reqId = 0 :=
  fun e he => (ha.2.2.2.2.1 e he).2.2

theorem runInputs_cons (a : Actor) (inp : ActorIn) (rest : List ActorIn) :
    runInputs a (inp :: rest) =
      match actorStep a inp with
      | (ps, a', some h) => (ps, a', some h)
      | (ps, a', none) =>
        let (ps', a'', h) := runInputs a' rest
        (ps ++ ps', a'', h) := rfl

theorem find?_pkid_facts {l : List OutEntry} {pk : PacketId} {e : OutEntry}
    (h : l.find? (fun x => x.pkid == pk) = some e) : e ∈ l ∧ e.pkid = pk :=
  ⟨List.mem_of_find?_eq_some h, by
    have hs := List.find?_some h
    exact beq_iff_eq.mp hs⟩

theorem find?_pkid_of_mem (l : List OutEntry) (e : OutEntry)
    (hnd : (l.map (·.pkid)).Nodup) (he : e ∈ l) :
    l.find? (fun x => x.pkid == e.pkid) = some e := by
  induction l with
  | nil => simp at he
  | cons f rest ih =>
    simp only [List.map_cons, List.nodup_cons] at hnd
    rcases List.mem_cons.mp he with rfl | he2
    · exact List.find?_cons_of_pos rest (by simp)
    · have hne : ¬((f.pkid == e.pkid) = true) := by
        rw [beq_iff_eq]
        intro hc
        exact hnd.1 (hc ▸ List.mem_map_of_mem (·.pkid) he2)
      rw [List.find?_cons_of_neg rest hne]
      exact ih hnd.2 he2

theorem freshFor_head {a : Actor} {rid : ReqId} {inp : ActorIn} {rest : List ActorIn}
    (h : FreshFor a (inp :: rest)) (hi : insRids (inp :: rest) = rid :: insRids rest) :
    rid ∉ a.futures.map (·.1) := by
  unfold FreshFor at h
  rw [hi] at h
  intro hk
  exact (List.nodup_append.mp h).2.2 hk (List.mem_cons_self _ _)

theorem freshFor_tail_cmd {a : Actor} (out' : List OutEntry) (fs' : List (ReqId × Nat))
    (pk' : PacketId) {rid : ReqId} {inp : ActorIn} {rest : List ActorIn}
    (h : FreshFor a (inp :: rest)) (hi : insRids (inp :: rest) = rid :: insRids rest)
    (hkeys : fs'.map (·.1) = a.futures.map (·.1) ++ [rid]) :
    FreshFor ⟨out', fs', pk'⟩ rest := by
  unfold FreshFor at h ⊢
  rw [hi] at h
  show (fs'.map (·.1) ++ insRids rest).Nodup
  rw [hkeys, List.append_assoc]
  exact h

theorem freshFor_tail_same {a : Actor} (out' : List OutEntry) (fs' : List (ReqId × Nat))
    (pk' : PacketId) {inp : ActorIn} {rest : List ActorIn}
    (h : FreshFor a (inp :: rest)) (hi : insRids (inp :: rest) = insRids rest)
    (hkeys : fs'.map (·.1) = a.futures.map (·.1)) :
    FreshFor ⟨out', fs', pk'⟩ rest := by
  unfold FreshFor at h ⊢
  rw [hi] at h
  show (fs'.map (·.1) ++ insRids rest).Nodup
  rw [hkeys]
  exact h

theorem newPubs_append (xs ys : List OutPacket) :
    newPubs (xs ++ ys) = newPubs xs ++ newPubs ys := by
  induction xs with
  | nil => rfl
  | cons x rest ih =>
    cases x with
    | publish pk d pub => cases d <;> simp [newPubs, ih]
    | pubrel pk => simp [newPubs, ih]
    | disconnect => simp [newPubs, ih]

theorem freshFor_tail_id {a : Actor} {inp : ActorIn} {rest : List ActorIn}
    (h : FreshFor a (inp :: rest)) (hi : insRids (inp :: rest) = insRids rest) :
    FreshFor a rest := by
  unfold FreshFor at h ⊢
  rw [hi] at h
  exact h

theorem keys_resolve_append (fs : List (ReqId × Nat)) (rid : ReqId) :
    (resolveFut (fs ++ [(rid, 0)]) rid).map (·.1) = fs.map (·.1) ++ [rid] := by
  rw [keys_resolveFut, List.map_append]
  rfl

theorem runInputs_cons_halt (a : Actor) (inp : ActorIn) (rest : List ActorIn)
    (ps : List OutPacket) (a1 : Actor) (h : Halt)
    (hstep : actorStep a inp = (ps, a1, some h)) :
    runInputs a (inp :: rest) = (ps, a1, some h) := by
  rw [runInputs_cons, hstep]

theorem runInputs_cons_cont (a : Actor) (inp : ActorIn) (rest : List ActorIn)
    (ps : List OutPacket) (a1 : Actor)
    (hstep : actorStep a inp = (ps, a1, none)) :
    runInputs a (inp :: rest) =
      (ps ++ (runInputs a1 rest).1, (runInputs a1 rest).2.1, (runInputs a1 rest).2.2) := by
  rw [runInputs_cons, hstep]

theorem newPubs_cons_pub_false (pk : PacketId) (pub : Publication) (r : List OutPacket) :
    newPubs (.publish pk false pub :: r) = pub :: newPubs r := rfl

theorem newPubs_cons_pubrel (pk : PacketId) (r : List OutPacket) :
    newPubs (.pubrel pk :: r) = newPubs r := rfl

theorem cmdPubs_cons_pub (rid : ReqId) (pub : Publication) (r : List ActorIn) :
    cmdPubs (.cmdPublish rid pub :: r) = pub :: cmdPubs r := rfl

/-- The facts established about one attempt's input processing, by one
induction: the session invariant is preserved; on a halt-free run the
DUP-clear publishes hit the wire exactly in command-enqueue order; an
outstanding entry whose terminal acknowledgment never arrives stays
outstanding with its future pending; and a shutdown halt resolves the
shutdown future exactly once with the DISCONNECT on the wire. -/
theorem runInputs_facts : ∀ (ins : List ActorIn) (a : Actor), a.Inv → FreshFor a ins →
    (runInputs a ins).2.1.Inv ∧
    ((runInputs a ins).2.2 = none → newPubs (runInputs a ins).1 = cmdPubs ins) ∧
    (∀ e ∈ a.outstanding, hasAckFor e.pkid ins = false →
      e ∈ (runInputs a ins).2.1.outstanding ∧
      futCount (runInputs a ins).2.1.futures e.reqId = 0) ∧
    (∀ rid : ReqId, (runInputs a ins).2.2 = some (.shutdown rid) →
      futCount (runInputs a ins).2.1.futures rid = 1 ∧
      OutPacket.disconnect ∈ (runInputs a ins).1) := by
  intro ins
  induction ins with
  | nil =>
    intro a ha hf
    refine ⟨ha, fun _ => rfl, ?_, ?_⟩
    · intro e he _
      exact ⟨he, ha.pend e he⟩
    · intro rid hr
      exact absurd hr (by simp [runInputs])
  | cons inp rest ih =>
    intro a ha hf
    cases inp with
    | cmdPublish rid pub =>
      have hfr : rid ∉ a.futures.map (·.1) := freshFor_head hf rfl
      by_cases hq0 : pub.qos = .atMostOnce
      · have hinv1 : Actor.Inv ⟨a.outstanding, resolveFut (a.futures ++ [(rid, 0)]) rid,
            a.nextPk⟩ := inv_after_resolve_new a rid ha hfr
        have hfresh1 : FreshFor ⟨a.outstanding, resolveFut (a.futures ++ [(rid, 0)]) rid,
            a.nextPk⟩ rest :=
          freshFor_tail_cmd _ _ _ hf rfl (keys_resolve_append a.futures rid)
        have IH := ih _ hinv1 hfresh1
        rw [runInputs_cons_cont a _ rest _ _ (actorStep_cmdPublish_q0 a rid pub hq0)]
        dsimp only
        refine ⟨IH.1, ?_, ?_, ?_⟩
        · intro hn
          rw [List.singleton_append, newPubs_cons_pub_false, IH.2.1 hn, cmdPubs_cons_pub]
        · intro e he hack
          exact IH.2.2.1 e he hack
        · intro rid' hr'
          obtain ⟨hc1, hc2⟩ := IH.2.2.2 rid' hr'
          exact ⟨hc1, List.mem_append_right _ hc2⟩
      · have hinv1 : Actor.Inv ⟨a.outstanding ++ [⟨rid, a.nextPk, pub⟩],
            a.futures ++ [(rid, 0)], a.nextPk + 1⟩ := inv_after_publish a rid pub ha hfr hq0
        have hfresh1 : FreshFor ⟨a.outstanding ++ [⟨rid, a.nextPk, pub⟩],
            a.futures ++ [(rid, 0)], a.nextPk + 1⟩ rest := by
          refine freshFor_tail_cmd _ _ _ hf rfl ?_
          rw [List.map_append]
          rfl
        have IH := ih _ hinv1 hfresh1
        rw [runInputs_cons_cont a _ rest _ _ (actorStep_cmdPublish_q12 a rid pub hq0)]
        dsimp only
        refine ⟨IH.1, ?_, ?_, ?_⟩
        · intro hn
          rw [List.singleton_append, newPubs_cons_pub_false, IH.2.1 hn, cmdPubs_cons_pub]
        · intro e he hack
          exact IH.2.2.1 e (List.mem_append_left _ he) hack
        · intro rid' hr'
          obtain ⟨hc1, hc2⟩ := IH.2.2.2 rid' hr'
          exact ⟨hc1, List.mem_append_right _ hc2⟩
    | cmdShutdown rid =>
      have hfr : rid ∉ a.futures.map (·.1) := freshFor_head hf rfl
      rw [runInputs_cons_halt a _ rest _ _ _ (actorStep_cmdShutdown a rid)]
      dsimp only
      refine ⟨inv_after_resolve_new a rid ha hfr, ?_, ?_, ?_⟩
      · intro hn
        simp at hn
      · intro e he hack
        refine ⟨he, ?_⟩
        have hek := (ha.2.2.2.2.1 e he).1
        have hne : e.reqId ≠ rid := fun hc => hfr (hc ▸ hek)
        rw [futCount_resolve_ne _ _ _ hne, futCount_append_ne _ _ _ _ hne]
        exact ha.pend e he
      · intro rid' hr'
        have hrid : rid = rid' := by
          injection hr' with h1
          injection h1
        subst hrid
        refine ⟨?_, List.mem_singleton.mpr rfl⟩
        have hmem : rid ∈ (a.futures ++ [((rid, 0) : ReqId × Nat)]).map (·.1) := by
          rw [List.map_append]
          exact List.mem_append_right _ (by simp)
        rw [futCount_resolve_self _ _ hmem, futCount_append_fresh _ _ _ hfr]
    | inPuback pk =>
      cases hfind : a.outstanding.find? (fun x => x.pkid == pk) with
      | none =>
        rw [runInputs_cons_halt a _ rest _ _ _ (actorStep_inPuback_none a pk hfind)]
        dsimp only
        refine ⟨ha, ?_, ?_, ?_⟩
        · intro hn; simp at hn
        · intro e he _; exact ⟨he, ha.pend e he⟩
        · intro rid' hr'; simp at hr'
      | some e2 =>
        by_cases hq2 : e2.pub.qos = .atLeastOnce
        · obtain ⟨hmem2, hpk2⟩ := find?_pkid_facts hfind
          subst hpk2
          have hinv1 : Actor.Inv ⟨a.outstanding.filter (fun x => x.pkid != e2.pkid),
              resolveFut a.futures e2.reqId, a.nextPk⟩ := inv_after_ack a e2 ha hmem2
          have hfresh1 : FreshFor ⟨a.outstanding.filter (fun x => x.pkid != e2.pkid),
              resolveFut a.futures e2.reqId, a.nextPk⟩ rest :=
            freshFor_tail_same _ _ _ hf rfl (keys_resolveFut a.futures e2.reqId)
          have IH := ih _ hinv1 hfresh1
          rw [runInputs_cons_cont a _ rest _ _
            (actorStep_inPuback_found a e2.pkid e2 hfind hq2)]
          dsimp only
          refine ⟨IH.1, ?_, ?_, ?_⟩
          · intro hn
            rw [List.nil_append, IH.2.1 hn]
            rfl
          · intro e he hack
            have hack2 : (e2.pkid == e.pkid) = false ∧ hasAckFor e.pkid rest = false := by
              have hor : (e2.pkid == e.pkid || hasAckFor e.pkid rest) = false := hack
              exact Bool.or_eq_false_iff.mp hor
            have hne : e.pkid ≠ e2.pkid := fun hc =>
              (beq_eq_false_iff_ne.mp hack2.1) hc.symm
            refine IH.2.2.1 e ?_ hack2.2
            exact List.mem_filter.mpr ⟨he, bne_iff_ne.mpr hne⟩
          · intro rid' hr'
            obtain ⟨hc1, hc2⟩ := IH.2.2.2 rid' hr'
            exact ⟨hc1, List.mem_append_right _ hc2⟩
        · rw [runInputs_cons_halt a _ rest _ _ _
            (actorStep_inPuback_found_bad a pk e2 hfind hq2)]
          dsimp only
          refine ⟨ha, ?_, ?_, ?_⟩
          · intro hn; simp at hn
          · intro e he _; exact ⟨he, ha.pend e he⟩
          · intro rid' hr'; simp at hr'
    | inPubrec pk =>
      cases hfind : a.outstanding.find? (fun x => x.pkid == pk) with
      | none =>
        rw [runInputs_cons_halt a _ rest _ _ _ (actorStep_inPubrec_none a pk hfind)]
        dsimp only
        refine ⟨ha, ?_, ?_, ?_⟩
        · intro hn; simp at hn
        · intro e he _; exact ⟨he, ha.pend e he⟩
        · intro rid' hr'; simp at hr'
      | some e2 =>
        by_cases hq2 : e2.pub.qos = .exactlyOnce
        · have hfresh1 : FreshFor a rest := freshFor_tail_id hf rfl
          have IH := ih a ha hfresh1
          rw [runInputs_cons_cont a _ rest _ _ (actorStep_inPubrec_found a pk e2 hfind hq2)]
          dsimp only
          refine ⟨IH.1, ?_, ?_, ?_⟩
          · intro hn
            rw [List.singleton_append, newPubs_cons_pubrel, IH.2.1 hn]
            rfl
          · intro e he hack
            exact IH.2.2.1 e he hack
          · intro rid' hr'
            obtain ⟨hc1, hc2⟩ := IH.2.2.2 rid' hr'
            exact ⟨hc1, List.mem_append_right _ hc2⟩
        · rw [runInputs_cons_halt a _ rest _ _ _
            (actorStep_inPubrec_found_bad a pk e2 hfind hq2)]
          dsimp only
          refine ⟨ha, ?_, ?_, ?_⟩
          · intro hn; simp at hn
          · intro e he _; exact ⟨he, ha.pend e he⟩
          · intro rid' hr'; simp at hr'
    | inPubcomp pk =>
      cases hfind : a.outstanding.find? (fun x => x.pkid == pk) with
      | none =>
        rw [runInputs_cons_halt a _ rest _ _ _ (actorStep_inPubcomp_none a pk hfind)]
        dsimp only
        refine ⟨ha, ?_, ?_, ?_⟩
        · intro hn; simp at hn
        · intro e he _; exact ⟨he, ha.pend e he⟩
        · intro rid' hr'; simp at hr'
      | some e2 =>
        by_cases hq2 : e2.pub.qos = .exactlyOnce
        · obtain ⟨hmem2, hpk2⟩ := find?_pkid_facts hfind
          subst hpk2
          have hinv1 : Actor.Inv ⟨a.outstanding.filter (fun x => x.pkid != e2.pkid),
              resolveFut a.futures e2.reqId, a.nextPk⟩ := inv_after_ack a e2 ha hmem2
          have hfresh1 : FreshFor ⟨a.outstanding.filter (fun x => x.pkid != e2.pkid),
              resolveFut a.futures e2.reqId, a.nextPk⟩ rest :=
            freshFor_tail_same _ _ _ hf rfl (keys_resolveFut a.futures e2.reqId)
          have IH := ih _ hinv1 hfresh1
          rw [runInputs_cons_cont a _ rest _ _
            (actorStep_inPubcomp_found a e2.pkid e2 hfind hq2)]
          dsimp only
          refine ⟨IH.1, ?_, ?_, ?_⟩
          · intro hn
            rw [List.nil_append, IH.2.1 hn]
            rfl
          · intro e he hack
            have hack2 : (e2.pkid == e.pkid) = false ∧ hasAckFor e.pkid rest = false := by
              have hor : (e2.pkid == e.pkid || hasAckFor e.pkid rest) = false := hack
              exact Bool.or_eq_false_iff.mp hor
            have hne : e.pkid ≠ e2.pkid := fun hc =>
              (beq_eq_false_iff_ne.mp hack2.1) hc.symm
            refine IH.2.2.1 e ?_ hack2.2
            exact List.mem_filter.mpr ⟨he, bne_iff_ne.mpr hne⟩
          · intro rid' hr'
            obtain ⟨hc1, hc2⟩ := IH.2.2.2 rid' hr'
            exact ⟨hc1, List.mem_append_right _ hc2⟩
        · rw [runInputs_cons_halt a _ rest _ _ _
            (actorStep_inPubcomp_found_bad a pk e2 hfind hq2)]
          dsimp only
          refine ⟨ha, ?_, ?_, ?_⟩
          · intro hn; simp at hn
          · intro e he _; exact ⟨he, ha.pend e he⟩
          · intro rid' hr'; simp at hr'

theorem renumber_cons (pk : PacketId) (e : OutEntry) (rest : List OutEntry) :
    renumber pk (e :: rest) =
      (⟨e.reqId, pk, e.pub⟩ :: (renumber (pk + 1) rest).1, (renumber (pk + 1) rest).2) := rfl

theorem renumber_spec (l : List OutEntry) : ∀ pk : PacketId,
    ((renumber pk l).1.map (fun e => (e.reqId, e.pub)) =
      l.map (fun e => (e.reqId, e.pub))) ∧
    ((renumber pk l).1.map (·.pkid) = List.range' pk l.length) ∧
    (renumber pk l).2 = pk + l.length := by
  induction l with
  | nil =>
    intro pk
    exact ⟨rfl, rfl, rfl⟩
  | cons e rest ih =>
    intro pk
    obtain ⟨ih1, ih2, ih3⟩ := ih (pk + 1)
    rw [renumber_cons]
    refine ⟨?_, ?_, ?_⟩
    · dsimp only [List.map_cons]
      rw [ih1]
    · dsimp only [List.map_cons, List.length_cons]
      rw [ih2, List.range'_succ pk rest.length 1]
    · dsimp only [List.length_cons]
      rw [ih3, Nat.add_assoc, Nat.add_comm 1 rest.length]

theorem runAttempt_true (a : Actor) (ins : List ActorIn) :
    runAttempt true a ins =
      (a.outstanding.map retransmit ++ (runInputs a ins).1,
       (runInputs a ins).2.1, (runInputs a ins).2.2) := rfl

theorem onConnack_false_eq (a : Actor) :
    onConnack false a =
      ((renumber a.nextPk a.outstanding).1.map (fun e => .publish e.pkid false e.pub),
       ⟨(renumber a.nextPk a.outstanding).1, a.futures,
        (renumber a.nextPk a.outstanding).2⟩) := rfl

instance (a : Actor) : Decidable a.Inv := by
  unfold Actor.Inv
  infer_instance

instance (a : Actor) (ins : List ActorIn) : Decidable (FreshFor a ins) := by
  unfold FreshFor
  infer_instance

/-- C3: On a successful CONNACK with session-present = true, every
outstanding QoS 1/2 entry is retransmitted — same identifier and publication,
DUP flag set — before any new traffic of that attempt, and the session is
otherwise unchanged; with session-present = false the stale entries are
discarded after being marked for replay as new requests (same request id and
publication, fresh identifiers, DUP clear), resolving no completion future
(no duplicate delivery to the application).  A publish accepted before a
mid-attempt failure is thus retransmitted with DUP set on the next successful
attempt, and its completion future stays pending until a genuine terminal
acknowledgment arrives, never exceeding one resolution. -/
theorem connack_session_replay (a : Actor) (ins : List ActorIn) (ha : a.Inv)
    (hf : FreshFor a ins) :
    ((runAttempt true a ins).1 =
      a.outstanding.map (fun e => .publish e.pkid true e.pub) ++ (runInputs a ins).1) ∧
    ((onConnack true a).2 = a) ∧
    ((onConnack false a).2.outstanding.map (fun e => (e.reqId, e.pub)) =
      a.outstanding.map (fun e => (e.reqId, e.pub))) ∧
    ((onConnack false a).2.outstanding.map (·.pkid) =
      List.range' a.nextPk a.outstanding.length) ∧
    ((onConnack false a).1 =
      (onConnack false a).2.outstanding.map (fun e => .publish e.pkid false e.pub)) ∧
    ((onConnack false a).2.futures = a.futures) ∧
    (∀ e ∈ a.outstanding, OutPacket.publish e.pkid true e.pub ∈ (runAttempt true a ins).1) ∧
    (∀ e ∈ a.outstanding, hasAckFor e.pkid ins = false →
      e ∈ (runAttempt true a ins).2.1.outstanding ∧
      futCount (runAttempt true a ins).2.1.futures e.reqId = 0) ∧
    (∀ f ∈ (runAttempt true a ins).2.1.futures, f.2 ≤ 1) := by
  have hfacts := runInputs_facts ins a ha hf
  refine ⟨rfl, rfl, (renumber_spec a.outstanding a.nextPk).1,
    (renumber_spec a.outstanding a.nextPk).2.1, rfl, rfl, ?_, ?_, ?_⟩
  · intro e he
    rw [runAttempt_true]
    exact List.mem_append_left _ (List.mem_map_of_mem retransmit he)
  · intro e he hack
    rw [runAttempt_true]
    exact hfacts.2.2.1 e he hack
  · rw [runAttempt_true]
    exact hfacts.1.2.2.2.2.2

/-- Witness for C3 at a one-entry session receiving its PUBACK. -/
theorem connack_session_replay_witness :
    (runAttempt true ⟨[⟨7, 1, ⟨"foo", .atLeastOnce, false, []⟩⟩], [(7, 0)], 2⟩
        [.inPuback 1]).1 =
      [.publish 1 true ⟨"foo", .atLeastOnce, false, []⟩] ++
        (runInputs ⟨[⟨7, 1, ⟨"foo", .atLeastOnce, false, []⟩⟩], [(7, 0)], 2⟩
          [.inPuback 1]).1 :=
  (connack_session_replay ⟨[⟨7, 1, ⟨"foo", .atLeastOnce, false, []⟩⟩], [(7, 0)], 2⟩
    [.inPuback 1] (by decide) (by decide)).1

/-- C5: Within one connection attempt, requests reach the wire in command
channel enqueue order (on a halt-free run, the DUP-clear publishes equal the
publish commands in order); every completion future resolves at most once
and resolves exactly on the terminal acknowledgment of its entry (PUBACK for
QoS 1, PUBCOMP for QoS 2): a pending entry's matching terminal
acknowledgment removes the entry and moves its resolution count from 0 to 1;
the shutdown future resolves exactly once when the DISCONNECT/disconnection
is observed; and an attempt ending before an outstanding publish is
acknowledged leaves the entry outstanding and the caller's future pending —
never silently dropped. -/
theorem command_order_and_futures (a : Actor) (ins : List ActorIn) (ha : a.Inv)
    (hf : FreshFor a ins) :
    ((runInputs a ins).2.2 = none → newPubs (runInputs a ins).1 = cmdPubs ins) ∧
    (∀ rid : ReqId, futCount (runInputs a ins).2.1.futures rid ≤ 1) ∧
    (∀ e ∈ a.outstanding, hasAckFor e.pkid ins = false →
      e ∈ (runInputs a ins).2.1.outstanding ∧
      futCount (runInputs a ins).2.1.futures e.reqId = 0) ∧
    (∀ rid : ReqId, (runInputs a ins).2.2 = some (.shutdown rid) →
      futCount (runInputs a ins).2.1.futures rid = 1 ∧
      OutPacket.disconnect ∈ (runInputs a ins).1) ∧
    (∀ e ∈ a.outstanding, e.pub.qos = .atLeastOnce →
      actorStep a (.inPuback e.pkid) =
        ([], ⟨a.outstanding.filter (fun x => x.pkid != e.pkid),
              resolveFut a.futures e.reqId, a.nextPk⟩, none) ∧
      futCount (resolveFut a.futures e.reqId) e.reqId = 1) ∧
    (∀ e ∈ a.outstanding, e.pub.qos = .exactlyOnce →
      actorStep a (.inPubcomp e.pkid) =
        ([], ⟨a.outstanding.filter (fun x => x.pkid != e.pkid),
              resolveFut a.futures e.reqId, a.nextPk⟩, none) ∧
      futCount (resolveFut a.futures e.reqId) e.reqId = 1) := by
  have hfacts := runInputs_facts ins a ha hf
  have hresolved : ∀ e ∈ a.outstanding,
      futCount (resolveFut a.futures e.reqId) e.reqId = 1 := by
    intro e he
    rw [futCount_resolve_self a.futures e.reqId (ha.2.2.2.2.1 e he).1, ha.pend e he]
  refine ⟨hfacts.2.1, ?_, hfacts.2.2.1, hfacts.2.2.2, ?_, ?_⟩
  · intro rid
    exact futCount_le_one _ _ hfacts.1.2.2.2.2.2
  · intro e he hq
    exact ⟨actorStep_inPuback_found a e.pkid e (find?_pkid_of_mem _ e ha.1 he) hq,
      hresolved e he⟩
  · intro e he hq
    exact ⟨actorStep_inPubcomp_found a e.pkid e (find?_pkid_of_mem _ e ha.1 he) hq,
      hresolved e he⟩

/-- Witness for C5 at a fresh session and a single QoS 1 publish command. -/
theorem command_order_and_futures_witness :
    newPubs (runInputs ⟨[], [], 1⟩ [.cmdPublish 5 ⟨"t", .atLeastOnce, false, []⟩]).1 =
      cmdPubs [.cmdPublish 5 ⟨"t", .atLeastOnce, false, []⟩] := by
  have h := command_order_and_futures ⟨[], [], 1⟩
    [.cmdPublish 5 ⟨"t", .atLeastOnce, false, []⟩] (by decide) (by decide)
  exact h.1 (by decide)

/-! ## Client construction and handle acquisition (src/examples) — claims C9
and C10 -/

/-- Durations (std::time::Duration at the call sites), in seconds. -/
abbrev Duration := Nat

/-- The argument list of `mqtt3::Client::new` as invoked at
`src/examples/publisher.rs:81-94` and `src/examples/will.rs:89-102`: six
arguments, in this order. -/
def clientNewParams : List String :=
  ["client_id", "username", "will", "transport_factory",
   "max_reconnect_back_off", "keep_alive"]

/-- The components of the transport-factory callback's success value,
`Ok((stream, sink, password))`, at `src/examples/publisher.rs:88-89` and
`src/examples/will.rs:96-97`. -/
def transportFactoryResultFields : List String :=
  ["stream", "sink", "password"]

/-- The construction parameter list exactly as the spec's §6 states it:
seven parameters, the password among them. -/
def specConstructionParams : List String :=
  ["client_id", "username", "password", "will", "transport_factory",
   "max_reconnect_back_off", "keep_alive"]

/-- The client as constructed by `mqtt3::Client::new` at the call sites: the
six construction parameters, plus whether the engine has shut down.  The
transport factory is abstracted to the data it supplies per connection —
the password delivered as the third component of its result triple
(`src/examples/publisher.rs:86-90`); the stream and sink are out of scope
(spec §1). -/
structure Client where
  client_id : Option ByteStr
  username : Option ByteStr
  will : Option Publication
  transport_factory : Unit → Option ByteStr
  max_reconnect_back_off : Duration
  keep_alive : Duration
  shut_down : Bool

/-- `mqtt3::Client::new` as invoked at `src/examples/publisher.rs:81-94`:
six parameters, no password among them; the fresh engine is running. -/
def Client.new (client_id : Option ByteStr) (username : Option ByteStr)
    (will : Option Publication) (transport_factory : Unit → Option ByteStr)
    (max_reconnect_back_off : Duration) (keep_alive : Duration) : Client :=
  ⟨client_id, username, will, transport_factory, max_reconnect_back_off,
   keep_alive, false⟩

/-- C9 counterexample: the construction parameter list of `Client::new` at
the call sites is not the spec's list, and in particular the password is not
among the construction parameters. -/
theorem client_new_no_password_param :
    clientNewParams ≠ specConstructionParams ∧ "password" ∉ clientNewParams := by
  decide

/-- C9 (amended): Client construction takes exactly six parameters —
optional client identifier, optional username, optional will,
transport-factory callback, max-reconnect-backoff duration, keep-alive
duration — and the password is supplied per connection as the third
component of the transport factory's result, not as a construction
parameter of the client itself. -/
theorem client_new_params :
    clientNewParams = ["client_id", "username", "will", "transport_factory",
      "max_reconnect_back_off", "keep_alive"] ∧
    "password" ∉ clientNewParams ∧
    transportFactoryResultFields[2]? = some "password" := by
  decide

/-- Errors from handle acquisition.  Modelled from the spec: the accessor
bodies are not under src/; the call sites unwrap each accessor's result with
`expect` (`src/examples/publisher.rs:96-111`, `src/examples/will.rs:104-106`),
so acquisition is fallible; the engine hands out handles only while running
(spec §6, §7: only shutdown is client-fatal). -/
inductive HandleError
  | clientDoesNotExist
deriving DecidableEq, Repr

/-- The publish handle of the Handle Multiplexer (spec §4.3). -/
structure PublishHandle where
  mk' ::
deriving DecidableEq, Repr

/-- The subscription-update handle of the Handle Multiplexer (spec §4.3). -/
structure UpdateSubscriptionHandle where
  mk' ::
deriving DecidableEq, Repr

/-- The shutdown handle of the Handle Multiplexer (spec §4.3). -/
structure ShutdownHandle where
  mk' ::
deriving DecidableEq, Repr

/-- Modelled from the spec: `publish_handle()` returns a Result wrapping the
handle, erring once the engine has shut down. -/
def Client.publish_handle (c : Client) : Except HandleError PublishHandle :=
  if c.shut_down then .error .clientDoesNotExist else .ok ⟨⟩

/-- Modelled from the spec: `update_subscription_handle()` returns a Result
wrapping the handle, erring once the engine has shut down. -/
def Client.update_subscription_handle (c : Client) :
    Except HandleError UpdateSubscriptionHandle :=
  if c.shut_down then .error .clientDoesNotExist else .ok ⟨⟩

/-- Modelled from the spec: `shutdown_handle()` returns a Result wrapping the
handle, erring once the engine has shut down. -/
def Client.shutdown_handle (c : Client) : Except HandleError ShutdownHandle :=
  if c.shut_down then .error .clientDoesNotExist else .ok ⟨⟩

/-- C10: acquiring any of the three handles is itself fallible — each
accessor returns a Result wrapping the handle, succeeding on a freshly
constructed client and erring on a shut-down one, so a caller must handle an
error case at acquisition time. -/
theorem handle_acquisition_fallible :
    (Client.new none none none (fun _ => none) 30 5).publish_handle = .ok ⟨⟩ ∧
    (Client.new none none none (fun _ => none) 30 5).update_subscription_handle = .ok ⟨⟩ ∧
    (Client.new none none none (fun _ => none) 30 5).shutdown_handle = .ok ⟨⟩ ∧
    Client.publish_handle ⟨none, none, none, fun _ => none, 30, 5, true⟩ =
      .error .clientDoesNotExist ∧
    Client.update_subscription_handle ⟨none, none, none, fun _ => none, 30, 5, true⟩ =
      .error .clientDoesNotExist ∧
    Client.shutdown_handle ⟨none, none, none, fun _ => none, 30, 5, true⟩ =
      .error .clientDoesNotExist :=
  ⟨rfl, rfl, rfl, rfl, rfl, rfl⟩

end Mqtt3
